import Mathlib

/-!
Shallow embedding of the domino game engine in src/domino_game.py.

Conventions of the translation:
- Python tuples (a, b) for tiles become Nat × Nat.
- Python objects that are mutated in place become explicit record updates;
  the Game object becomes a GameState record, with the self.winner object
  reference modelled by its index in the players list (Player objects have
  no custom equality in the source, so list.index on the winner object
  returns its position).
- Python exceptions (list.remove on a missing element, indexing an empty
  list, subscripting None) are modelled with Option/Except: none / .error
  means the Python code raises.
- random.shuffle is external nondeterminism: the shuffled pool is passed in
  as a parameter, constrained to be a permutation of the tile set.
-/

namespace Dominos

/-- A domino tile, as the Python pair (a, b). -/
abbrev Tile := Nat × Nat

/-- Embeds namedtuple Action = (insert_end, domino, flip). -/
structure Action where
  insert_end : Bool
  domino : Tile
  flip : Bool
deriving DecidableEq, Repr

/-- Embeds namedtuple TurnDataPoint = (player_name, did_play, domino_played);
domino_played is None on a pass, hence Option. -/
structure TurnDataPoint where
  player_name : String
  did_play : Bool
  domino_played : Option Tile
deriving DecidableEq, Repr

/-- Embeds namedtuple TurnData = (played_dominos, legal_moves). -/
structure TurnData where
  played_dominos : List Tile
  legal_moves : List Action
deriving DecidableEq, Repr

/-- Embeds class Player: name, hand (self._dominos) and score. -/
structure Player where
  name : String
  dominos : List Tile
  score : Nat
deriving DecidableEq, Repr

/-- Embeds the mutable fields of class Game that the engine logic reads and
writes during a round.  self.winner is modelled by its index winner_idx. -/
structure GameState where
  players : List Player
  played_dominos : List Tile
  round_history : List TurnDataPoint
  winner_idx : Nat
  next_player_index : Nat
  first_game_round_step : Bool
deriving DecidableEq, Repr

/-- The 28-tile double-six set, Game.DOMINOS verbatim. -/
def DOMINOS : List Tile :=
  [(0, 0), (0, 1), (0, 2), (0, 3), (0, 4), (0, 5), (0, 6), (1, 1),
   (1, 2), (1, 3), (1, 4), (1, 5), (1, 6), (2, 2), (2, 3), (2, 4),
   (2, 5), (2, 6), (3, 3), (3, 4), (3, 5), (3, 6), (4, 4), (4, 5),
   (4, 6), (5, 5), (5, 6), (6, 6)]

/-- Python list.remove(d): removes the first occurrence of d, raising
ValueError (none) when d is absent. -/
def removeFirst : List Tile → Tile → Option (List Tile)
  | [], _ => none
  | a :: l, d => if a = d then some l else (removeFirst l d).map (a :: ·)

/-- Player.is_hand_empty. -/
def is_hand_empty (p : Player) : Bool := p.dominos.isEmpty

/-- Player.get_points: sum(map(sum, self._dominos)). -/
def get_points (p : Player) : Nat := (p.dominos.map (fun d => d.1 + d.2)).sum

/-- Player.has_double_six. -/
def has_double_six (p : Player) : Bool := p.dominos.count (6, 6) == 1

/-- Player.play_double_six: appends (6,6) to the board, then removes it from
the hand (ValueError when the hand lacks it). -/
def play_double_six (p : Player) (played : List Tile) :
    Option (List Tile × Player) :=
  match removeFirst p.dominos (6, 6) with
  | none => none
  | some ds => some (played ++ [(6, 6)], { p with dominos := ds })

/-- Player.get_legal_moves.  On an empty board, one unflipped tail-append
Action per tile; otherwise the four matching checks per tile, appended in
source order (the per-tile loop body is a bind over the hand). -/
def get_legal_moves (p : Player) (played : List Tile) : List Action :=
  match played with
  | [] => p.dominos.map (fun d => Action.mk true d false)
  | p0 :: rest =>
    let head := p0.1
    let tail := ((p0 :: rest).getLastD (0, 0)).2
    p.dominos.flatMap (fun d =>
      (if d.1 = tail then [Action.mk true d false] else []) ++
      (if d.2 = tail then [Action.mk true d true] else []) ++
      (if d.1 = head then [Action.mk false d true] else []) ++
      (if d.2 = head then [Action.mk false d false] else []))

/-- Player.take_turn.  The chooser is the external ActionChooser; its result
is applied with no legality check.  On .error the board has already been
mutated (Python appends/inserts before self._dominos.remove raises), so the
error value carries the mutated board. -/
def take_turn (p : Player) (played : List Tile) (chooser : TurnData → Action) :
    Except (List Tile) (Bool × List Tile × Option Tile × Player) :=
  let moves := get_legal_moves p played
  if moves.isEmpty then .ok (false, played, none, p)
  else
    let mv := chooser (TurnData.mk played moves)
    let domino := if mv.flip then (mv.domino.2, mv.domino.1) else mv.domino
    let newPlayed := if mv.insert_end then played ++ [domino] else domino :: played
    match removeFirst p.dominos mv.domino with
    | none => .error newPlayed
    | some ds => .ok (true, newPlayed, some domino, { p with dominos := ds })

/-- Game.get_player_by_name: first player with that name; IndexError (none)
when there is none. -/
def get_player_by_name (g : GameState) (name : String) : Option Player :=
  (g.players.filter (fun p => p.name == name)).head?

/-- Game.get_next_player_index. -/
def get_next_player_index (g : GameState) : Nat :=
  (g.next_player_index + 1) % g.players.length

/-- Game.give_points_to_team.  Faithful to the source: player_index is
computed from self.winner (the stored winner object), NOT from the player
argument, which the body never uses. -/
def give_points_to_team (g : GameState) (_player : Player) (points : Nat) :
    GameState :=
  let player_index := g.winner_idx
  { g with players := g.players.mapIdx (fun i q =>
      if (if player_index = 0 ∨ player_index = 2 then i % 2 = 0 else i % 2 = 1)
      then { q with score := q.score + points } else q) }

/-- Game.update_score: the sum over every player's remaining pips goes to
give_points_to_team with self.winner as the (ignored) player argument. -/
def update_score (g : GameState) : GameState :=
  let total_points := (g.players.map get_points).sum
  give_points_to_team g (g.players.getD g.winner_idx (Player.mk "" [] 0))
    total_points

/-- Occurrences of v across left and right values of all placed tiles, the
counting loop of Game.is_locked. -/
def countEnds (played : List Tile) (v : Nat) : Nat :=
  (played.map (fun d => (if d.1 = v then 1 else 0) + (if d.2 = v then 1 else 0))).sum

/-- Game.is_locked.  On an empty board the Python code raises IndexError
(none); otherwise head == tail and the end-count equals exactly 8. -/
def is_locked (played : List Tile) : Option Bool :=
  match played.head?, played.getLast? with
  | some p0, some pl =>
    if p0.1 = pl.2 then some (countEnds played p0.1 == 8) else some false
  | _, _ => none

/-- Game.check_for_bonus_points.  Returns none where the Python code raises:
a failed name lookup, and the final domino-out branch, where
self.played_dominos.remove(last_domino) either raises ValueError
(last_domino is None on a pass, or a tile absent from the board) or returns
None so that the following subscript raises TypeError. -/
def check_for_bonus_points (g : GameState) : Option GameState :=
  if g.round_history.length < 2 then some g
  else
    match g.round_history.getLast? with
    | none => some g
    | some last_move =>
      if last_move.did_play then some g
      else
        match get_player_by_name g last_move.player_name with
        | none => none
        | some last_player =>
          if g.round_history.length = 2 then
            some (give_points_to_team g last_player 25)
          else if g.round_history.length < 4 then some g
          else
            match g.round_history.drop (g.round_history.length - 4) with
            | [t0, t1, t2, t3] =>
              if t0.did_play ∧ ¬t1.did_play ∧ ¬t2.did_play ∧ ¬t3.did_play then
                match get_player_by_name g t0.player_name with
                | none => none
                | some player =>
                  some (give_points_to_team g player 25)
              else if ¬(is_hand_empty last_player) then some g
              else none
            | _ => some g

/-- The turn-application part of Game.step: selects the acting player,
runs the forced double-six opening or an ordinary take_turn, writes the
updated player, board and history back, and returns the updated state
together with did_play, the oriented domino played, and the updated acting
player. -/
def run_turn (g : GameState) (chooser : TurnData → Action) :
    Option (GameState × Bool × Option Tile × Player) :=
  match g.players[g.next_player_index]? with
  | none => none
  | some next_player =>
    if g.first_game_round_step then
      match play_double_six next_player g.played_dominos with
      | none => none
      | some (pd, p1) =>
        some ({ g with
                  players := g.players.set g.next_player_index p1,
                  played_dominos := pd,
                  round_history := g.round_history ++
                    [TurnDataPoint.mk p1.name true (some (6, 6))],
                  first_game_round_step := false },
              true, some (6, 6), p1)
    else
      match take_turn next_player g.played_dominos chooser with
      | .error _ => none
      | .ok (did_play, pd, dom, p1) =>
        some ({ g with
                  players := g.players.set g.next_player_index p1,
                  played_dominos := pd,
                  round_history := g.round_history ++
                    [TurnDataPoint.mk p1.name did_play dom] },
              did_play, dom, p1)

/-- Game.step: apply the turn, record history, check bonuses, then the
terminal conditions in source order: empty hand first (winner := acting
player, index not advanced), then locked board (winner := the pip-poorer of
acting and next player, next on ties), else advance the index. -/
def step (g : GameState) (chooser : TurnData → Action) :
    Option (Bool × GameState) :=
  match run_turn g chooser with
  | none => none
  | some (g1, _, _, p1) =>
    match check_for_bonus_points g1 with
    | none => none
    | some g2 =>
      if is_hand_empty p1 then
        some (false, { g2 with winner_idx := g2.next_player_index })
      else
        match is_locked g2.played_dominos with
        | none => none
        | some locked =>
          if locked then
            match g2.players[get_next_player_index g2]? with
            | none => none
            | some p_next =>
              some (false, { g2 with winner_idx :=
                (if get_points p1 < get_points p_next then g2.next_player_index
                 else get_next_player_index g2) })
          else
            some (true, { g2 with next_player_index := get_next_player_index g2 })

/-- The default players Game.new_game builds when _players is None. -/
def defaultPlayers : List Player :=
  [Player.mk "P1" [] 0, Player.mk "P2" [] 0,
   Player.mk "P3" [] 0, Player.mk "P4" [] 0]

/-- Game.new_game (shuffle_players=False path; shuffling only permutes the
caller's list and is external randomness).  _reset clears the board, the
history and every hand; Player.reset does NOT touch score.  winner :=
players[0], first_game_round_step := True. -/
def new_game (g : GameState) (ps : Option (List Player)) : GameState :=
  let players := match ps with
    | none => defaultPlayers
    | some l => l
  { g with
      players := players.map (fun p => { p with dominos := [] }),
      played_dominos := [],
      round_history := [],
      winner_idx := 0,
      first_game_round_step := true }

/-- Every 4th element starting at the head: with drop, this embeds the
Python slice pool[i::4] of Game.new_round as takeEvery4 (pool.drop i). -/
def takeEvery4 : List Tile → List Tile
  | [] => []
  | [a] => [a]
  | [a, _] => [a]
  | [a, _, _] => [a]
  | a :: _ :: _ :: _ :: l => a :: takeEvery4 l

/-- The hand dealt to seat i in Game.new_round:
players[i].give_dominos(pool[i::4]). -/
def deal (pool : List Tile) (i : Nat) : List Tile :=
  takeEvery4 (pool.drop i)

/-- The per-team score lists are balanced: seats 0 and 2 hold equal scores
and seats 1 and 3 hold equal scores. -/
def TeamScoresEqual (g : GameState) : Prop :=
  ∃ a b c d, g.players.map (fun p => p.score) = [a, b, c, d] ∧ a = c ∧ b = d

/-! ## Helper lemmas -/

lemma removeFirst_eq_none {l : List Tile} {d : Tile} :
    removeFirst l d = none ↔ d ∉ l := by
  induction l with
  | nil => simp [removeFirst]
  | cons a t ih =>
    by_cases h : a = d
    · subst h; simp [removeFirst]
    · simp only [removeFirst, if_neg h, Option.map_eq_none', ih, List.mem_cons]
      have h2 : ¬d = a := fun e => h e.symm
      tauto

lemma map_set_same {β : Type} (f : Player → β) :
    ∀ (l : List Player) (i : Nat) (a b : Player), l[i]? = some b → f a = f b →
      (l.set i a).map f = l.map f := by
  intro l
  induction l with
  | nil => intro i a b hb; simp at hb
  | cons x xs ih =>
    intro i a b hb hab
    cases i with
    | zero => simp at hb; subst hb; simp [List.set, hab]
    | succ n => simp at hb; simp [List.set, ih n a b hb hab]

lemma len4_shape {l : List Player} (h : l.length = 4) :
    ∃ a b c d, l = [a, b, c, d] := by
  match l, h with
  | [a, b, c, d], _ => exact ⟨a, b, c, d, rfl⟩

lemma takeEvery4_cons (a : Tile) (l : List Tile) :
    takeEvery4 (a :: l) = a :: takeEvery4 (l.drop 3) := by
  match l with
  | [] => rfl
  | [_] => rfl
  | [_, _] => rfl
  | _ :: _ :: _ :: _ => rfl

lemma takeEvery4_length : ∀ l : List Tile, (takeEvery4 l).length = (l.length + 3) / 4
  | [] => by simp [takeEvery4]
  | [_] => by simp [takeEvery4]
  | [_, _] => by simp only [takeEvery4, List.length_cons, List.length_nil]
  | [_, _, _] => by simp only [takeEvery4, List.length_cons, List.length_nil]
  | _ :: _ :: _ :: _ :: t => by
      simp only [takeEvery4, List.length_cons, takeEvery4_length t]
      omega

lemma slices_perm : ∀ l : List Tile,
    (takeEvery4 l ++ (takeEvery4 (l.drop 1) ++
      (takeEvery4 (l.drop 2) ++ takeEvery4 (l.drop 3)))).Perm l := by
  intro l
  induction l with
  | nil => simp [takeEvery4]
  | cons a t ih =>
    rw [takeEvery4_cons]
    have h1 : (a :: t).drop 1 = t := rfl
    have h2 : (a :: t).drop 2 = t.drop 1 := rfl
    have h3 : (a :: t).drop 3 = t.drop 2 := rfl
    rw [h1, h2, h3]
    simp only [List.cons_append]
    apply List.Perm.cons
    have hcomm : (takeEvery4 (t.drop 3) ++
        (takeEvery4 t ++ (takeEvery4 (t.drop 1) ++ takeEvery4 (t.drop 2)))).Perm
        ((takeEvery4 t ++ (takeEvery4 (t.drop 1) ++ takeEvery4 (t.drop 2))) ++
          takeEvery4 (t.drop 3)) :=
      List.perm_append_comm
    refine hcomm.trans ?_
    have hassoc : (takeEvery4 t ++ (takeEvery4 (t.drop 1) ++ takeEvery4 (t.drop 2))) ++
        takeEvery4 (t.drop 3)
        = takeEvery4 t ++ (takeEvery4 (t.drop 1) ++
            (takeEvery4 (t.drop 2) ++ takeEvery4 (t.drop 3))) := by
      simp [List.append_assoc]
    rw [hassoc]
    exact ih

lemma mem_takeEvery4_slice : ∀ (q : Nat) {r : Nat} {l : List Tile} {t : Tile},
    l[4 * q + r]? = some t → t ∈ takeEvery4 (l.drop r) := by
  intro q
  induction q with
  | zero =>
    intro r l t h
    simp only [Nat.mul_zero, Nat.zero_add] at h
    have h0 : (l.drop r)[0]? = some t := by
      rw [List.getElem?_drop]; simpa using h
    match hd : l.drop r with
    | [] => rw [hd] at h0; simp at h0
    | x :: xs =>
      rw [hd] at h0
      simp at h0
      rw [takeEvery4_cons]
      subst h0
      exact List.mem_cons_self _ _
  | succ q ih =>
    intro r l t h
    have hlen : 4 * (q + 1) + r < l.length := (List.getElem?_eq_some.mp h).1
    match hd : l.drop r with
    | [] =>
      have := congrArg List.length hd
      simp [List.length_drop] at this
      omega
    | x :: xs =>
      rw [takeEvery4_cons]
      apply List.mem_cons_of_mem
      have hxs : xs.drop 3 = (l.drop 4).drop r := by
        have h1 : (l.drop r).drop 4 = xs.drop 3 := by rw [hd]; rfl
        rw [List.drop_drop] at h1
        rw [List.drop_drop]
        rw [← h1]
        congr 1
        omega
      rw [hxs]
      apply ih
      rw [List.getElem?_drop]
      have he : 4 + (4 * q + r) = 4 * (q + 1) + r := by omega
      rw [he]; exact h

/-! ## Claim theorems -/

/-- C7: for every shuffled pool (a permutation of the 28-tile set), the
round-robin deal pool[i::4] gives each of the 4 seats exactly 7 tiles, the
hands partition the full double-six set (their concatenation is a
permutation of it, and they are pairwise disjoint), and tile i of the
shuffle order lands in seat i mod 4. -/
theorem c7_deal_partition (pool : List Tile) (hpool : pool.Perm DOMINOS) :
    ((deal pool 0).length = 7 ∧ (deal pool 1).length = 7 ∧
     (deal pool 2).length = 7 ∧ (deal pool 3).length = 7) ∧
    (deal pool 0 ++ deal pool 1 ++ deal pool 2 ++ deal pool 3).Perm DOMINOS ∧
    ((deal pool 0).Disjoint (deal pool 1) ∧ (deal pool 0).Disjoint (deal pool 2) ∧
     (deal pool 0).Disjoint (deal pool 3) ∧ (deal pool 1).Disjoint (deal pool 2) ∧
     (deal pool 1).Disjoint (deal pool 3) ∧ (deal pool 2).Disjoint (deal pool 3)) ∧
    (∀ j t, pool[j]? = some t → t ∈ deal pool (j % 4)) := by
  have hlen : pool.length = 28 := by rw [hpool.length_eq]; rfl
  have hperm : (deal pool 0 ++ deal pool 1 ++ deal pool 2 ++ deal pool 3).Perm pool := by
    have h := slices_perm pool
    simp only [List.drop_zero] at h
    have he : deal pool 0 ++ deal pool 1 ++ deal pool 2 ++ deal pool 3
        = takeEvery4 pool ++ (takeEvery4 (pool.drop 1) ++
            (takeEvery4 (pool.drop 2) ++ takeEvery4 (pool.drop 3))) := by
      simp [deal, List.append_assoc]
    rw [he]
    exact h
  have hD : (deal pool 0 ++ deal pool 1 ++ deal pool 2 ++ deal pool 3).Perm DOMINOS :=
    hperm.trans hpool
  have hnodup : (deal pool 0 ++ deal pool 1 ++ deal pool 2 ++ deal pool 3).Nodup :=
    hD.nodup_iff.mpr (by decide)
  refine ⟨?_, hD, ?_, ?_⟩
  · refine ⟨?_, ?_, ?_, ?_⟩ <;>
      simp [deal, takeEvery4_length, List.length_drop, hlen]
  · rw [List.nodup_append] at hnodup
    obtain ⟨h012, h3, hd3⟩ := hnodup
    rw [List.nodup_append] at h012
    obtain ⟨h01, h2, hd2⟩ := h012
    rw [List.nodup_append] at h01
    obtain ⟨h0, h1, hd1⟩ := h01
    rw [List.disjoint_append_left] at hd2
    rw [List.disjoint_append_left] at hd3
    obtain ⟨hd3a, hd33⟩ := hd3
    rw [List.disjoint_append_left] at hd3a
    exact ⟨hd1, hd2.1, hd3a.1, hd2.2, hd3a.2, hd33⟩
  · intro j t h
    have hj : 4 * (j / 4) + j % 4 = j := by omega
    exact mem_takeEvery4_slice (j / 4) (by rw [hj]; exact h)

/-- C7 witness: the identity shuffle of the tile set. -/
theorem c7_deal_partition_witness :
    ((deal DOMINOS 0).length = 7 ∧ (deal DOMINOS 1).length = 7 ∧
     (deal DOMINOS 2).length = 7 ∧ (deal DOMINOS 3).length = 7) ∧
    (deal DOMINOS 0 ++ deal DOMINOS 1 ++ deal DOMINOS 2 ++ deal DOMINOS 3).Perm DOMINOS ∧
    ((deal DOMINOS 0).Disjoint (deal DOMINOS 1) ∧ (deal DOMINOS 0).Disjoint (deal DOMINOS 2) ∧
     (deal DOMINOS 0).Disjoint (deal DOMINOS 3) ∧ (deal DOMINOS 1).Disjoint (deal DOMINOS 2) ∧
     (deal DOMINOS 1).Disjoint (deal DOMINOS 3) ∧ (deal DOMINOS 2).Disjoint (deal DOMINOS 3)) ∧
    (0, 5) ∈ deal DOMINOS (5 % 4) := by
  have h := c7_deal_partition DOMINOS (List.Perm.refl _)
  exact ⟨h.1, h.2.1, h.2.2.1, h.2.2.2 5 (0, 5) rfl⟩

/-- C9 counterexample: new_game with caller-supplied players does not zero
their scores: players handed in with scores 10, 20, 0, 5 keep them. -/
theorem c9_counterexample :
    (new_game (GameState.mk [] [] [] 0 0 false)
        (some [Player.mk "A" [(1, 1)] 10, Player.mk "B" [] 20,
               Player.mk "C" [] 0, Player.mk "D" [] 5])).players.map (fun p => p.score)
      = [10, 20, 0, 5] ∧ ([10, 20, 0, 5] : List Nat) ≠ [0, 0, 0, 0] :=
  ⟨rfl, by decide⟩

/-- C9 amended: after new_game the first-round-of-game flag is true, and
scores are all zero when the default players are built (no list supplied);
a caller-supplied list keeps each player's existing score (new_game clears
hands but never writes scores). -/
theorem c9_new_game_scores :
    (∀ g, (new_game g none).players.map (fun p => p.score) = [0, 0, 0, 0] ∧
          (new_game g none).first_game_round_step = true) ∧
    (∀ g ps, (new_game g (some ps)).players.map (fun p => p.score) =
               ps.map (fun p => p.score) ∧
             (new_game g (some ps)).first_game_round_step = true) := by
  constructor
  · intro g; exact ⟨rfl, rfl⟩
  · intro g ps
    refine ⟨?_, rfl⟩
    simp only [new_game, List.map_map]
    rfl

def g1state : GameState :=
  GameState.mk
    [Player.mk "P1" [(1, 1)] 0, Player.mk "P2" [(2, 2)] 0,
     Player.mk "P3" [(3, 3)] 0, Player.mk "P4" [(4, 4)] 0]
    [(6, 6)] [] 0 1 false

/-- C1: refuted as stated — give_points_to_team called with player P2
(seat 1, so the claim demands seats 1 and 3 be credited) instead credits
seats 0 and 2, the team of the stored winner (winner_idx = 0): the body
ignores its player argument. -/
theorem c1_give_points_uses_winner_not_player :
    g1state.winner_idx = 0 ∧
    g1state.players[1]? = some (Player.mk "P2" [(2, 2)] 0) ∧
    (give_points_to_team g1state (Player.mk "P2" [(2, 2)] 0) 25).players.map
        (fun p => p.score) = [25, 0, 25, 0] :=
  ⟨rfl, rfl, rfl⟩

lemma give_points_scores (g : GameState) (p : Player) (n : Nat) (s0 s1 s2 s3 : Nat)
    (hmap : g.players.map (fun q => q.score) = [s0, s1, s2, s3]) :
    (give_points_to_team g p n).players.map (fun q => q.score) =
      if g.winner_idx = 0 ∨ g.winner_idx = 2 then [s0 + n, s1, s2 + n, s3]
      else [s0, s1 + n, s2, s3 + n] := by
  have hlen : g.players.length = 4 := by
    have h := congrArg List.length hmap
    simpa using h
  obtain ⟨q0, q1, q2, q3, hq⟩ := len4_shape hlen
  rw [hq] at hmap
  simp only [List.map_cons, List.map_nil, List.cons.injEq, and_true] at hmap
  obtain ⟨h0, h1, h2, h3⟩ := hmap
  by_cases hw : g.winner_idx = 0 ∨ g.winner_idx = 2
  · simp [give_points_to_team, hq, hw, h0, h1, h2, h3]
  · simp [give_points_to_team, hq, hw, h0, h1, h2, h3]

def g3state : GameState :=
  GameState.mk
    [Player.mk "P1" [] 0, Player.mk "P2" [(3, 4)] 0,
     Player.mk "P3" [(5, 5)] 0, Player.mk "P4" [(0, 1)] 0]
    [(3, 2), (2, 3)]
    [TurnDataPoint.mk "P2" true (some (3, 2)), TurnDataPoint.mk "P1" true (some (2, 3))]
    0 0 false

/-- C3: refuted by the code — at a state where the most recent recorded
turn emptied P1's hand by playing (2,3), and removing that tile from the
board [(3,2),(2,3)] leaves [(3,2)] whose head 3 and tail 2 are exactly the
tile's values in reverse order, check_for_bonus_points awards nothing and
returns the state untouched: the early return on did_play makes the
domino-out-via-fit branch unreachable whenever a tile was actually
played. -/
theorem c3_domino_out_fit_not_awarded :
    g3state.round_history.getLast? = some (TurnDataPoint.mk "P1" true (some (2, 3))) ∧
    g3state.players[0]? = some (Player.mk "P1" [] 0) ∧
    g3state.played_dominos = [(3, 2), (2, 3)] ∧
    check_for_bonus_points g3state = some g3state :=
  ⟨rfl, rfl, rfl, by decide⟩

def g2state : GameState :=
  GameState.mk
    [Player.mk "P1" [(1, 2)] 0, Player.mk "P2" [(3, 4)] 0,
     Player.mk "P3" [(5, 5)] 0, Player.mk "P4" [(0, 1)] 0]
    [(6, 6)]
    [TurnDataPoint.mk "P1" true (some (6, 6)), TurnDataPoint.mk "P2" false none]
    0 2 false

/-- C2 counterexample: the first two turns of the round are P1 playing
(6,6) and P2 passing — the first turn placed a tile, so the claim says no
shutout bonus — yet the code awards 25 points, and credits seats 0 and 2
(the stored winner's team) although the second passer P2 sits at seat 1. -/
theorem c2_counterexample :
    g2state.round_history = [TurnDataPoint.mk "P1" true (some (6, 6)),
                             TurnDataPoint.mk "P2" false none] ∧
    (check_for_bonus_points g2state).map (fun g2 => g2.players.map (fun p => p.score))
      = some [25, 0, 25, 0] :=
  ⟨rfl, by decide⟩

/-- C2 amended: the 25-point bonus of the length-2 branch fires exactly
when exactly two turns have been recorded and the most recent one is a
pass, whether or not the first turn placed a tile; the points go through
give_points_to_team, which credits the team of the stored round winner
(seats 0 and 2 when winner_idx is 0 or 2, else seats 1 and 3), not
necessarily the second passer's team. -/
theorem c2_shutout_bonus :
    (∀ g, g.round_history.length < 2 → check_for_bonus_points g = some g) ∧
    (∀ g last_move, g.round_history.getLast? = some last_move →
       last_move.did_play = true → check_for_bonus_points g = some g) ∧
    (∀ g last_move p, g.round_history.getLast? = some last_move →
       g.round_history.length = 2 → last_move.did_play = false →
       get_player_by_name g last_move.player_name = some p →
       check_for_bonus_points g = some (give_points_to_team g p 25)) ∧
    (∀ g last_move p, g.round_history.getLast? = some last_move →
       g.round_history.length = 3 → last_move.did_play = false →
       get_player_by_name g last_move.player_name = some p →
       check_for_bonus_points g = some g) ∧
    (∀ g last_move p s0 s1 s2 s3, g.round_history.getLast? = some last_move →
       g.round_history.length = 2 → last_move.did_play = false →
       get_player_by_name g last_move.player_name = some p →
       g.players.map (fun q => q.score) = [s0, s1, s2, s3] →
       (check_for_bonus_points g).map (fun g2 => g2.players.map (fun q => q.score)) =
         some (if g.winner_idx = 0 ∨ g.winner_idx = 2 then [s0 + 25, s1, s2 + 25, s3]
               else [s0, s1 + 25, s2, s3 + 25])) := by
  have part1 : ∀ g, g.round_history.length < 2 → check_for_bonus_points g = some g := by
    intro g h
    simp [check_for_bonus_points, h]
  have part2 : ∀ g last_move, g.round_history.getLast? = some last_move →
      last_move.did_play = true → check_for_bonus_points g = some g := by
    intro g last_move hlast hplay
    by_cases hl : g.round_history.length < 2
    · exact part1 g hl
    · simp [check_for_bonus_points, hl, hlast, hplay]
  have part3 : ∀ g last_move p, g.round_history.getLast? = some last_move →
      g.round_history.length = 2 → last_move.did_play = false →
      get_player_by_name g last_move.player_name = some p →
      check_for_bonus_points g = some (give_points_to_team g p 25) := by
    intro g last_move p hlast hlen hplay hlook
    simp [check_for_bonus_points, hlen, hlast, hplay, hlook]
  refine ⟨part1, part2, part3, ?_, ?_⟩
  · intro g last_move p hlast hlen hplay hlook
    simp [check_for_bonus_points, hlen, hlast, hplay, hlook]
  · intro g last_move p s0 s1 s2 s3 hlast hlen hplay hlook hmap
    rw [part3 g last_move p hlast hlen hplay hlook]
    simp only [Option.map_some']
    rw [give_points_scores g p 25 s0 s1 s2 s3 hmap]

/-- C2 witness: a first-round opening where P1 played (6,6) and P2 then
passed, instantiating the amended bonus rule. -/
theorem c2_shutout_bonus_witness :
    g2state.round_history.getLast? = some (TurnDataPoint.mk "P2" false none) ∧
    g2state.round_history.length = 2 ∧
    check_for_bonus_points g2state
      = some (give_points_to_team g2state (Player.mk "P2" [(3, 4)] 0) 25) := by
  refine ⟨rfl, rfl, ?_⟩
  exact (c2_shutout_bonus.2.2.1) g2state (TurnDataPoint.mk "P2" false none)
    (Player.mk "P2" [(3, 4)] 0) rfl rfl rfl (by decide)

def pC4 : Player := Player.mk "P1" [(5, 1), (3, 4)] 0

/-- A misbehaving ActionChooser that fabricates the action (append, (3,4),
unflipped) no matter what legal moves it is offered. -/
def rogue : TurnData → Action := fun _ => Action.mk true (3, 4) false

/-- C4 counterexample: on board [(5,5)] with hand [(5,1),(3,4)], the
chooser returns an Action absent from the legal set (the tile (3,4)
matches neither end), yet take_turn raises no error and applies it: the
board becomes [(5,5),(3,4)] and the hand loses (3,4). -/
theorem c4_counterexample :
    Action.mk true (3, 4) false ∉ get_legal_moves pC4 [(5, 5)] ∧
    rogue (TurnData.mk [(5, 5)] (get_legal_moves pC4 [(5, 5)])) = Action.mk true (3, 4) false ∧
    take_turn pC4 [(5, 5)] rogue
      = Except.ok (true, [(5, 5), (3, 4)], some ((3, 4) : Tile), Player.mk "P1" [(5, 1)] 0) :=
  ⟨by decide, rfl, rfl⟩

/-- C4 amended: take_turn never checks the chosen Action against the legal
set.  Whenever legal moves exist, the chooser's Action is applied as-is:
if its domino is in the hand the turn succeeds silently (board extended,
domino removed, recorded as played) even when the Action is not among the
legal moves; only when the domino is absent from the hand does the turn
fail, and then the board has already been mutated (the error carries the
already-extended board, as Python appends before self._dominos.remove
raises). -/
theorem c4_no_validation (p : Player) (played : List Tile) (chooser : TurnData → Action)
    (mv : Action) (dom : Tile) (newPlayed : List Tile)
    (hmoves : get_legal_moves p played ≠ [])
    (hmv : chooser (TurnData.mk played (get_legal_moves p played)) = mv)
    (hdom : dom = (if mv.flip then (mv.domino.2, mv.domino.1) else mv.domino))
    (hnew : newPlayed = (if mv.insert_end then played ++ [dom] else dom :: played)) :
    (mv.domino ∈ p.dominos → removeFirst p.dominos mv.domino ≠ none) ∧
    (∀ ds, removeFirst p.dominos mv.domino = some ds →
       take_turn p played chooser =
         Except.ok (true, newPlayed, some dom, { p with dominos := ds })) ∧
    (mv.domino ∉ p.dominos → take_turn p played chooser = Except.error newPlayed) := by
  have hne : (get_legal_moves p played).isEmpty = false := by
    simpa [List.isEmpty_iff] using hmoves
  refine ⟨?_, ?_, ?_⟩
  · intro hmem hcon
    exact (removeFirst_eq_none.mp hcon) hmem
  · intro ds hds
    subst hdom hnew
    simp [take_turn, hne, hmv, hds]
  · intro hmem
    have hnone : removeFirst p.dominos mv.domino = none := removeFirst_eq_none.mpr hmem
    subst hdom hnew
    simp [take_turn, hne, hmv, hnone]

/-- C4 witness: the rogue chooser's illegal action is applied without
error. -/
theorem c4_no_validation_witness :
    take_turn pC4 [(5, 5)] rogue
      = Except.ok (true, [(5, 5), (3, 4)], some ((3, 4) : Tile), Player.mk "P1" [(5, 1)] 0) :=
  (c4_no_validation pC4 [(5, 5)] rogue (Action.mk true (3, 4) false) (3, 4)
      [(5, 5), (3, 4)] (by decide) rfl rfl rfl).2.1 [(5, 1)] rfl

lemma mem_ite_singleton {α : Type} {c : Prop} [Decidable c] {x a : α} :
    a ∈ (if c then [x] else []) ↔ c ∧ a = x := by
  split <;> simp_all

lemma legal_block_mem (head tail : Nat) (hand : List Tile) (a : Action) :
    (a ∈ hand.flatMap (fun d =>
        (if d.1 = tail then [Action.mk true d false] else []) ++
        (if d.2 = tail then [Action.mk true d true] else []) ++
        (if d.1 = head then [Action.mk false d true] else []) ++
        (if d.2 = head then [Action.mk false d false] else []))) ↔
      (a.domino ∈ hand ∧
        ((a.insert_end = true ∧ a.flip = false ∧ a.domino.1 = tail) ∨
         (a.insert_end = true ∧ a.flip = true ∧ a.domino.2 = tail) ∨
         (a.insert_end = false ∧ a.flip = true ∧ a.domino.1 = head) ∨
         (a.insert_end = false ∧ a.flip = false ∧ a.domino.2 = head))) := by
  simp only [List.mem_flatMap, List.mem_append, mem_ite_singleton]
  constructor
  · rintro ⟨e, he, hcase⟩
    rcases hcase with ((⟨hc, rfl⟩ | ⟨hc, rfl⟩) | ⟨hc, rfl⟩) | ⟨hc, rfl⟩
    · exact ⟨he, Or.inl ⟨rfl, rfl, hc⟩⟩
    · exact ⟨he, Or.inr (Or.inl ⟨rfl, rfl, hc⟩)⟩
    · exact ⟨he, Or.inr (Or.inr (Or.inl ⟨rfl, rfl, hc⟩))⟩
    · exact ⟨he, Or.inr (Or.inr (Or.inr ⟨rfl, rfl, hc⟩))⟩
  · rintro ⟨hmem, hcond⟩
    refine ⟨a.domino, hmem, ?_⟩
    obtain ⟨ie, dm, fl⟩ := a
    rcases hcond with ⟨h1, h2, h3⟩ | ⟨h1, h2, h3⟩ | ⟨h1, h2, h3⟩ | ⟨h1, h2, h3⟩ <;>
      simp only at h1 h2 h3 <;> subst h1 <;> subst h2
    · exact Or.inl (Or.inl (Or.inl ⟨h3, rfl⟩))
    · exact Or.inl (Or.inl (Or.inr ⟨h3, rfl⟩))
    · exact Or.inl (Or.inr ⟨h3, rfl⟩)
    · exact Or.inr ⟨h3, rfl⟩

lemma legal_block_countP (head tail : Nat) (d : Tile) : ∀ hand : List Tile,
    ((hand.flatMap (fun e =>
        (if e.1 = tail then [Action.mk true e false] else []) ++
        (if e.2 = tail then [Action.mk true e true] else []) ++
        (if e.1 = head then [Action.mk false e true] else []) ++
        (if e.2 = head then [Action.mk false e false] else []))).countP
      (fun a => a.domino == d))
    = hand.count d *
        ((if d.1 = tail then 1 else 0) + (if d.2 = tail then 1 else 0) +
         (if d.1 = head then 1 else 0) + (if d.2 = head then 1 else 0)) := by
  intro hand
  induction hand with
  | nil => simp
  | cons e hs ih =>
    rw [List.flatMap_cons, List.countP_append, ih, List.count_cons]
    by_cases he : e = d
    · subst he
      have hw : (List.countP (fun a => a.domino == e)
          ((if e.1 = tail then [Action.mk true e false] else []) ++
           (if e.2 = tail then [Action.mk true e true] else []) ++
           (if e.1 = head then [Action.mk false e true] else []) ++
           (if e.2 = head then [Action.mk false e false] else [])))
          = (if e.1 = tail then 1 else 0) + (if e.2 = tail then 1 else 0) +
            (if e.1 = head then 1 else 0) + (if e.2 = head then 1 else 0) := by
        split_ifs <;> simp_all [List.countP_cons, List.countP_append]
      rw [hw]
      simp only [beq_self_eq_true, if_true]
      ring
    · have hw0 : (List.countP (fun a => a.domino == d)
          ((if e.1 = tail then [Action.mk true e false] else []) ++
           (if e.2 = tail then [Action.mk true e true] else []) ++
           (if e.1 = head then [Action.mk false e true] else []) ++
           (if e.2 = head then [Action.mk false e false] else []))) = 0 := by
        split_ifs <;> simp_all [List.countP_cons, List.countP_append, beq_iff_eq]
      rw [hw0]
      have hne : (e == d) = false := beq_eq_false_iff_ne.mpr he
      rw [hne]
      simp

def chooser0 : TurnData → Action := fun _ => Action.mk true (0, 0) false

/-- C6: legal-move generation.  On an empty board: exactly one Action per
tile in hand, unflipped, tail-append.  On a non-empty board with head h
and tail t: an action is generated iff its domino is in the hand and its
(end, flip) combination matches as the claim states (append-unflipped iff
a = t, append-flipped iff b = t, prepend-flipped iff a = h,
prepend-unflipped iff b = h); multiplicities are not deduplicated (each
hand occurrence of a tile contributes one Action per satisfied
condition, so up to 4 for a double matching both ends); and an empty
legal-move list makes take_turn record a pass. -/
theorem c6_legal_moves :
    (∀ p, get_legal_moves p [] = p.dominos.map (fun d => Action.mk true d false)) ∧
    (∀ p (p0 : Tile) rest a, a ∈ get_legal_moves p (p0 :: rest) ↔
       (a.domino ∈ p.dominos ∧
         ((a.insert_end = true ∧ a.flip = false ∧
             a.domino.1 = ((p0 :: rest).getLastD (0, 0)).2) ∨
          (a.insert_end = true ∧ a.flip = true ∧
             a.domino.2 = ((p0 :: rest).getLastD (0, 0)).2) ∨
          (a.insert_end = false ∧ a.flip = true ∧ a.domino.1 = p0.1) ∨
          (a.insert_end = false ∧ a.flip = false ∧ a.domino.2 = p0.1)))) ∧
    (∀ p (p0 : Tile) rest d, ((get_legal_moves p (p0 :: rest)).countP
        (fun a => a.domino == d))
       = p.dominos.count d *
           ((if d.1 = ((p0 :: rest).getLastD (0, 0)).2 then 1 else 0) +
            (if d.2 = ((p0 :: rest).getLastD (0, 0)).2 then 1 else 0) +
            (if d.1 = p0.1 then 1 else 0) + (if d.2 = p0.1 then 1 else 0))) ∧
    (∀ p played chooser, get_legal_moves p played = [] →
       take_turn p played chooser = Except.ok (false, played, none, p)) := by
  refine ⟨?_, ?_, ?_, ?_⟩
  · intro p; rfl
  · intro p p0 rest a
    exact legal_block_mem p0.1 ((p0 :: rest).getLastD (0, 0)).2 p.dominos a
  · intro p p0 rest d
    exact legal_block_countP p0.1 ((p0 :: rest).getLastD (0, 0)).2 d p.dominos
  · intro p played chooser h
    simp [take_turn, h]

/-- C6 witness: a hand with the double (5,5) against the board
[(5,3),(3,5)] (head 5, tail 5) generates 4 actions for the double; the
pass case fires when nothing matches. -/
theorem c6_legal_moves_witness :
    get_legal_moves (Player.mk "W" [(1, 2)] 0) [] = [Action.mk true (1, 2) false] ∧
    (Action.mk true (2, 5) true ∈
      get_legal_moves (Player.mk "W" [(5, 5), (2, 5)] 0) [(5, 3), (3, 5)]) ∧
    ((get_legal_moves (Player.mk "W" [(5, 5), (2, 5)] 0) [(5, 3), (3, 5)]).countP
        (fun a => a.domino == ((5, 5) : Tile)) = 4) ∧
    take_turn (Player.mk "W" [(1, 2)] 0) [(5, 3), (3, 5)] chooser0
      = Except.ok (false, [(5, 3), (3, 5)], none, Player.mk "W" [(1, 2)] 0) := by
  refine ⟨?_, ?_, ?_, ?_⟩
  · exact c6_legal_moves.1 (Player.mk "W" [(1, 2)] 0)
  · exact (c6_legal_moves.2.1 (Player.mk "W" [(5, 5), (2, 5)] 0) (5, 3) [(3, 5)]
      (Action.mk true (2, 5) true)).mpr (by decide)
  · rw [c6_legal_moves.2.2.1 (Player.mk "W" [(5, 5), (2, 5)] 0) (5, 3) [(3, 5)] (5, 5)]
    decide
  · exact c6_legal_moves.2.2.2 (Player.mk "W" [(1, 2)] 0) [(5, 3), (3, 5)] chooser0
      (by decide)

lemma play_double_six_player {p : Player} {pd x : List Tile} {p1 : Player}
    (h : play_double_six p pd = some (x, p1)) :
    p1.score = p.score ∧ p1.name = p.name := by
  simp only [play_double_six] at h
  split at h
  · simp at h
  · simp only [Option.some.injEq, Prod.mk.injEq] at h
    obtain ⟨-, hp⟩ := h
    subst hp
    exact ⟨rfl, rfl⟩

lemma take_turn_player {p : Player} {pd : List Tile} {c : TurnData → Action}
    {dp : Bool} {x : List Tile} {dom : Option Tile} {p1 : Player}
    (h : take_turn p pd c = Except.ok (dp, x, dom, p1)) :
    p1.score = p.score ∧ p1.name = p.name := by
  simp only [take_turn] at h
  split at h
  · simp only [Except.ok.injEq, Prod.mk.injEq] at h
    obtain ⟨-, -, -, hp⟩ := h
    subst hp
    exact ⟨rfl, rfl⟩
  · split at h
    · simp at h
    · simp only [Except.ok.injEq, Prod.mk.injEq] at h
      obtain ⟨-, -, -, hp⟩ := h
      subst hp
      exact ⟨rfl, rfl⟩

lemma run_turn_fields {g : GameState} {c : TurnData → Action} {g1 : GameState}
    {dp : Bool} {dom : Option Tile} {p1 : Player}
    (h : run_turn g c = some (g1, dp, dom, p1)) :
    g1.players.map (fun q => q.score) = g.players.map (fun q => q.score) ∧
    g1.next_player_index = g.next_player_index ∧
    g1.winner_idx = g.winner_idx ∧
    g1.players.length = g.players.length := by
  simp only [run_turn] at h
  split at h
  · simp at h
  · rename_i next_player hget
    split at h
    · split at h
      · simp at h
      · rename_i pr hpds
        simp only [Option.some.injEq, Prod.mk.injEq] at h
        obtain ⟨hg1, -, -, hp1⟩ := h
        subst hg1
        refine ⟨?_, rfl, rfl, by simp⟩
        exact map_set_same _ _ _ _ next_player hget
          (by rw [hp1] at hpds ⊢; exact (play_double_six_player hpds).1)
    · split at h
      · simp at h
      · rename_i rdp rx rdom rp htt
        simp only [Option.some.injEq, Prod.mk.injEq] at h
        obtain ⟨hg1, -, -, -⟩ := h
        subst hg1
        refine ⟨?_, rfl, rfl, by simp⟩
        exact map_set_same _ _ _ _ next_player hget (take_turn_player htt).1

lemma give_points_next (g : GameState) (p : Player) (n : Nat) :
    (give_points_to_team g p n).next_player_index = g.next_player_index ∧
    (give_points_to_team g p n).winner_idx = g.winner_idx ∧
    (give_points_to_team g p n).players.length = g.players.length := by
  refine ⟨rfl, rfl, ?_⟩
  simp [give_points_to_team]

lemma bonus_cases {g g2 : GameState} (h : check_for_bonus_points g = some g2) :
    g2 = g ∨ ∃ p, g2 = give_points_to_team g p 25 := by
  simp only [check_for_bonus_points] at h
  split at h
  · left; exact (Option.some.injEq _ _ ▸ h).symm
  · split at h
    · left; exact (Option.some.injEq _ _ ▸ h).symm
    · split at h
      · left; exact (Option.some.injEq _ _ ▸ h).symm
      · split at h
        · simp at h
        · rename_i last_player hlook
          split at h
          · right
            exact ⟨last_player, (Option.some.injEq _ _ ▸ h).symm⟩
          · split at h
            · left; exact (Option.some.injEq _ _ ▸ h).symm
            · split at h
              · split at h
                · split at h
                  · simp at h
                  · rename_i player hlook2
                    right
                    exact ⟨player, (Option.some.injEq _ _ ▸ h).symm⟩
                · split at h
                  · left; exact (Option.some.injEq _ _ ▸ h).symm
                  · simp at h
              · left; exact (Option.some.injEq _ _ ▸ h).symm

lemma bonus_fields {g g2 : GameState} (h : check_for_bonus_points g = some g2) :
    g2.next_player_index = g.next_player_index ∧
    g2.winner_idx = g.winner_idx := by
  rcases bonus_cases h with rfl | ⟨p, rfl⟩
  · exact ⟨rfl, rfl⟩
  · exact ⟨rfl, rfl⟩

/-- C8: the empty-hand check in step comes first: whenever the applied turn
leaves the acting player with an empty hand (and the bonus check
completed), step reports round end (false) with the acting seat as the
winner, and the turn index of the returned state is still the acting
seat — no lock evaluation is needed (no hypothesis about is_locked, which
on these states may even be unevaluable). -/
theorem c8_empty_hand_ends_round (g : GameState) (chooser : TurnData → Action)
    (g1 : GameState) (dp : Bool) (dom : Option Tile) (p1 : Player) (g2 : GameState)
    (hrun : run_turn g chooser = some (g1, dp, dom, p1))
    (hbonus : check_for_bonus_points g1 = some g2)
    (hempty : p1.dominos = []) :
    step g chooser = some (false, { g2 with winner_idx := g.next_player_index }) ∧
    g2.next_player_index = g.next_player_index := by
  have hn1 : g1.next_player_index = g.next_player_index := (run_turn_fields hrun).2.1
  have hn2 : g2.next_player_index = g1.next_player_index := (bonus_fields hbonus).1
  have he : is_hand_empty p1 = true := by simp [is_hand_empty, hempty]
  constructor
  · simp only [step, hrun, hbonus, he, if_true]
    rw [hn2, hn1]
  · rw [hn2, hn1]

def chooser_first : TurnData → Action :=
  fun td => td.legal_moves.headD (Action.mk true (0, 0) false)

def gC8state : GameState :=
  GameState.mk
    [Player.mk "P1" [(2, 3)] 0, Player.mk "P2" [(2, 1)] 0,
     Player.mk "P3" [(0, 5)] 0, Player.mk "P4" [(0, 4)] 0]
    [(5, 2)] [] 0 0 false

def gC8after : GameState :=
  GameState.mk
    [Player.mk "P1" [] 0, Player.mk "P2" [(2, 1)] 0,
     Player.mk "P3" [(0, 5)] 0, Player.mk "P4" [(0, 4)] 0]
    [(5, 2), (2, 3)]
    [TurnDataPoint.mk "P1" true (some (2, 3))]
    0 0 false

/-- C8 witness: P1 plays the last tile (2,3) onto [(5,2)]; the step ends
the round with P1's seat as winner and the index unmoved. -/
theorem c8_empty_hand_ends_round_witness :
    step gC8state chooser_first = some (false, gC8after) ∧
    gC8after.next_player_index = gC8state.next_player_index :=
  c8_empty_hand_ends_round gC8state chooser_first gC8after true (some (2, 3))
    (Player.mk "P1" [] 0) gC8after rfl rfl rfl

/-- A board whose ends both show 6 with all eight 6-ends already placed:
[(6,6),(6,0),(0,1),(1,6),(6,2),(2,3),(3,6),(6,4),(4,5),(5,6)]. -/
def lockedBoard : List Tile :=
  [(6, 6), (6, 0), (0, 1), (1, 6), (6, 2), (2, 3), (3, 6), (6, 4), (4, 5), (5, 6)]

def gC5state : GameState :=
  GameState.mk
    [Player.mk "P1" [(1, 2)] 0, Player.mk "P2" [(2, 1)] 0,
     Player.mk "P3" [(0, 5)] 0, Player.mk "P4" [(0, 4)] 0]
    lockedBoard [] 0 0 false

/-- C5 counterexample: the board is locked after P1's pass, and P1 (the
acting player, seat 0) and P2 (next, seat 1) hold equal pip totals (3
each); the claim says the tie goes to the current player, but step crowns
seat 1, the next player. -/
theorem c5_counterexample :
    get_points (Player.mk "P1" [(1, 2)] 0) = get_points (Player.mk "P2" [(2, 1)] 0) ∧
    gC5state.next_player_index = 0 ∧
    (step gC5state chooser_first).map (fun r => (r.1, r.2.winner_idx)) = some (false, 1) :=
  ⟨rfl, rfl, rfl⟩

/-- C5 amended: a nonempty board is locked exactly when its head value
equals its tail value and that value occurs exactly 8 times across the
left and right values of all placed tiles (so with 7 or 9 occurrences it
is not locked); when the board is locked after a turn (and the hand did
not empty), the round ends and the winner is the acting player if their
pip total is strictly smaller than the next player's, otherwise — on
larger totals and also on ties — the next player in turn order. -/
theorem c5_lock_and_winner :
    (∀ (played : List Tile) (h0 hl : Tile), played.head? = some h0 →
       played.getLast? = some hl →
       (is_locked played = some true ↔ (h0.1 = hl.2 ∧ countEnds played h0.1 = 8))) ∧
    (∀ (g : GameState) (chooser : TurnData → Action) (g1 : GameState) (dp : Bool)
       (dom : Option Tile) (p1 : Player) (g2 : GameState) (p_next : Player),
       run_turn g chooser = some (g1, dp, dom, p1) →
       check_for_bonus_points g1 = some g2 →
       p1.dominos ≠ [] →
       is_locked g2.played_dominos = some true →
       g2.players[get_next_player_index g2]? = some p_next →
       (step g chooser = some (false, { g2 with winner_idx :=
          (if get_points p1 < get_points p_next then g2.next_player_index
           else get_next_player_index g2) }) ∧
        g2.next_player_index = g.next_player_index)) := by
  constructor
  · intro played h0 hl hh hlast
    simp only [is_locked, hh, hlast]
    by_cases he : h0.1 = hl.2
    · simp only [he, if_true, Option.some.injEq, beq_iff_eq, true_and]
    · simp only [if_neg he]
      constructor
      · intro hc; simp at hc
      · intro hc; exact absurd hc.1 he
  · intro g chooser g1 dp dom p1 g2 p_next hrun hbonus hne hlock hnext
    have hn1 : g1.next_player_index = g.next_player_index := (run_turn_fields hrun).2.1
    have hn2 : g2.next_player_index = g1.next_player_index := (bonus_fields hbonus).1
    have he : is_hand_empty p1 = false := by
      unfold is_hand_empty
      cases hd : p1.dominos with
      | nil => exact absurd hd hne
      | cons x xs => rfl
    constructor
    · simp [step, hrun, hbonus, he, hlock, hnext]
    · rw [hn2, hn1]

def gC5W : GameState :=
  GameState.mk
    [Player.mk "P1" [(1, 2)] 0, Player.mk "P2" [(5, 4)] 0,
     Player.mk "P3" [(0, 5)] 0, Player.mk "P4" [(0, 4)] 0]
    lockedBoard [] 0 0 false

def gC5Wafter : GameState :=
  GameState.mk
    [Player.mk "P1" [(1, 2)] 0, Player.mk "P2" [(5, 4)] 0,
     Player.mk "P3" [(0, 5)] 0, Player.mk "P4" [(0, 4)] 0]
    lockedBoard [TurnDataPoint.mk "P1" false none] 0 0 false

/-- C5 witness: lockedBoard is locked (head = tail = 6, eight 6-ends), and
after P1's pass on it the round ends with P1 (3 pips, strictly fewer than
P2's 9) as winner. -/
theorem c5_lock_and_winner_witness :
    is_locked lockedBoard = some true ∧
    (step gC5W chooser_first = some (false, gC5Wafter) ∧
     gC5Wafter.next_player_index = gC5W.next_player_index) := by
  constructor
  · exact (c5_lock_and_winner.1 lockedBoard (6, 6) (5, 6) rfl rfl).mpr (by decide)
  · exact c5_lock_and_winner.2 gC5W chooser_first gC5Wafter false none
      (Player.mk "P1" [(1, 2)] 0) gC5Wafter (Player.mk "P2" [(5, 4)] 0)
      rfl rfl (by decide) rfl rfl

lemma tse_of_map_eq {g g2 : GameState}
    (h : g2.players.map (fun q => q.score) = g.players.map (fun q => q.score)) :
    TeamScoresEqual g → TeamScoresEqual g2 := by
  rintro ⟨a, b, c, d, hmap, hac, hbd⟩
  exact ⟨a, b, c, d, by rw [h, hmap], hac, hbd⟩

/-- C10: scoring always moves in team-pairs — give_points_to_team adds the
same amount to seats 0 and 2 or to seats 1 and 3 and leaves the other
team untouched; update_score does the same with the all-hands pip total;
hence the equal-teammate-scores invariant is preserved by end-of-round
settlement and by every successful step. -/
theorem c10_team_scores_balanced :
    (∀ (g : GameState) (p : Player) (n s0 s1 s2 s3 : Nat),
       g.players.map (fun q => q.score) = [s0, s1, s2, s3] →
       ((give_points_to_team g p n).players.map (fun q => q.score)
           = [s0 + n, s1, s2 + n, s3] ∨
        (give_points_to_team g p n).players.map (fun q => q.score)
           = [s0, s1 + n, s2, s3 + n])) ∧
    (∀ (g : GameState) (s0 s1 s2 s3 : Nat),
       g.players.map (fun q => q.score) = [s0, s1, s2, s3] →
       ((update_score g).players.map (fun q => q.score)
           = [s0 + (g.players.map get_points).sum, s1,
              s2 + (g.players.map get_points).sum, s3] ∨
        (update_score g).players.map (fun q => q.score)
           = [s0, s1 + (g.players.map get_points).sum, s2,
              s3 + (g.players.map get_points).sum])) ∧
    (∀ g : GameState, TeamScoresEqual g → TeamScoresEqual (update_score g)) ∧
    (∀ (g : GameState) (chooser : TurnData → Action) (b : Bool) (g2 : GameState),
       step g chooser = some (b, g2) → TeamScoresEqual g → TeamScoresEqual g2) := by
  have part1 : ∀ (g : GameState) (p : Player) (n s0 s1 s2 s3 : Nat),
      g.players.map (fun q => q.score) = [s0, s1, s2, s3] →
      ((give_points_to_team g p n).players.map (fun q => q.score)
          = [s0 + n, s1, s2 + n, s3] ∨
       (give_points_to_team g p n).players.map (fun q => q.score)
          = [s0, s1 + n, s2, s3 + n]) := by
    intro g p n s0 s1 s2 s3 h
    rw [give_points_scores g p n s0 s1 s2 s3 h]
    by_cases hw : g.winner_idx = 0 ∨ g.winner_idx = 2
    · left; rw [if_pos hw]
    · right; rw [if_neg hw]
  have htse_give : ∀ (g : GameState) (p : Player) (n : Nat),
      TeamScoresEqual g → TeamScoresEqual (give_points_to_team g p n) := by
    rintro g p n ⟨a, b, c, d, hmap, hac, hbd⟩
    subst hac
    subst hbd
    rcases part1 g p n a b a b hmap with h | h
    · exact ⟨a + n, b, a + n, b, h, rfl, rfl⟩
    · exact ⟨a, b + n, a, b + n, h, rfl, rfl⟩
  refine ⟨part1, ?_, ?_, ?_⟩
  · intro g s0 s1 s2 s3 h
    exact part1 g (g.players.getD g.winner_idx (Player.mk "" [] 0))
      ((g.players.map get_points).sum) s0 s1 s2 s3 h
  · intro g htse
    exact htse_give g (g.players.getD g.winner_idx (Player.mk "" [] 0))
      ((g.players.map get_points).sum) htse
  · intro g chooser b g2 hstep htse
    simp only [step] at hstep
    split at hstep
    · simp at hstep
    · rename_i g1 dpx domx p1x hrun
      split at hstep
      · simp at hstep
      · rename_i g2b hbonus
        have htse1 : TeamScoresEqual g1 := tse_of_map_eq (run_turn_fields hrun).1 htse
        have htse2 : TeamScoresEqual g2b := by
          rcases bonus_cases hbonus with rfl | ⟨p, rfl⟩
          · exact htse1
          · exact htse_give g1 p 25 htse1
        split at hstep
        · simp only [Option.some.injEq, Prod.mk.injEq] at hstep
          obtain ⟨-, hg2⟩ := hstep
          subst hg2
          exact htse2
        · split at hstep
          · simp at hstep
          · split at hstep
            · split at hstep
              · simp at hstep
              · simp only [Option.some.injEq, Prod.mk.injEq] at hstep
                obtain ⟨-, hg2⟩ := hstep
                subst hg2
                exact htse2
            · simp only [Option.some.injEq, Prod.mk.injEq] at hstep
              obtain ⟨-, hg2⟩ := hstep
              subst hg2
              exact htse2

/-- C10 witness: a bonus award moves one team's pair of scores together,
and a concrete step preserves the equal-teammate-scores invariant. -/
theorem c10_team_scores_balanced_witness :
    ((give_points_to_team g1state (Player.mk "P2" [(2, 2)] 0) 25).players.map
        (fun q => q.score) = [0 + 25, 0, 0 + 25, 0] ∨
     (give_points_to_team g1state (Player.mk "P2" [(2, 2)] 0) 25).players.map
        (fun q => q.score) = [0, 0 + 25, 0, 0 + 25]) ∧
    TeamScoresEqual gC8after := by
  constructor
  · exact c10_team_scores_balanced.1 g1state (Player.mk "P2" [(2, 2)] 0) 25 0 0 0 0 rfl
  · exact c10_team_scores_balanced.2.2.2 gC8state chooser_first false gC8after rfl
      ⟨0, 0, 0, 0, rfl, rfl, rfl⟩

end Dominos
